import Mathlib

/-!
Verification development for the stateful normalization core of
nexustrader/exchange/bybit/schema.py: the order-book reconstruction engine
(BybitOrderBook), the ticker state merger (BybitTicker) and the wallet
balance normalizer (BybitCoinBalance / BybitWsAccountWalletCoin).

Embedding conventions:
* Python numeric strings are parsed by an executable decimal-literal parser
  (`parseDec`) returning an exact decimal `Dec` (integer mantissa and
  base-ten fractional exponent, value `num / 10 ^ exp`); a malformed string
  parses to `none`, modelling the `ValueError` raised by `float(...)` and
  the `InvalidOperation` raised by `Decimal(...)`.  `Decimal` string
  conversion is exact and is embedded exactly; `Decimal` subtraction is
  embedded together with the default context's rounding of the result to
  28 significant digits with round-half-even (`Dec.roundTo`), so the
  embedded subtraction is exact precisely when the exact difference fits
  in 28 significant digits; `float(...)` conversion is embedded without
  its binary rounding, which none of the verified properties depend on.
  Two `Dec` values denote the same number exactly when they are
  `Dec.Eqv`-related; dictionary keys are compared by `Dec.Eqv`, matching
  Python's numeric key equality.  The lemmas `Dec.eqv_iff_toRat`,
  `Dec.le_iff_toRat`, `Dec.lt_iff_toRat` and `Dec.toRat_subExact` certify
  that the executable relations and the unrounded difference agree with
  exact rational arithmetic.
* A Python `dict` is embedded as an insertion-ordered association list;
  `d[k] = v` keeps the position (and key object) of an existing key and
  appends a new key at the end, exactly as CPython dicts do, and
  `d.pop(k)` with no default fails when the key is absent (`KeyError`).
* Python exceptions abort the statement sequence but leave already-applied
  in-place mutations in force.  Mutating methods are therefore embedded as
  functions returning the state as mutated so far, paired with
  `Option PyErr` (`none` = normal return).
* The wire type `list[list[str]]` for per-side level lists is embedded as
  `List (String × String)`: the handlers destructure every inner list as
  exactly two elements (`for price, size in data.b`).
* Wire-message fields that the stateful code never reads (`topic`, `ts`,
  `u`, `seq`, the 24h statistics fields of the ticker message, the margin
  fields of the balance entries) are omitted from the embedded structs.
-/

/-- Exceptions that the embedded Python code can raise. -/
inductive PyErr where
  | valueError
  | keyError
deriving DecidableEq, Repr

/-- Integer power of ten, written with structural recursion so that it
evaluates inside the kernel. -/
def tenPow : ℕ → ℤ
  | 0 => 1
  | n + 1 => 10 * tenPow n

/-- Exact decimal number: the denoted value is `num / 10 ^ exp`.  This is
the embedding of the exact values handled by Python `Decimal` (and, on the
inputs relevant here, `float`). -/
structure Dec where
  num : ℤ
  exp : ℕ
deriving DecidableEq, Repr

/-- Rational value denoted by an exact decimal. -/
def Dec.toRat (a : Dec) : ℚ :=
  (a.num : ℚ) / ((tenPow a.exp : ℤ) : ℚ)

/-- Value-level equality of exact decimals (cross-multiplied). -/
def Dec.Eqv (a b : Dec) : Prop :=
  a.num * tenPow b.exp = b.num * tenPow a.exp

/-- Value-level order on exact decimals (cross-multiplied). -/
def Dec.Le (a b : Dec) : Prop :=
  a.num * tenPow b.exp ≤ b.num * tenPow a.exp

/-- Strict value-level order on exact decimals. -/
def Dec.Lt (a b : Dec) : Prop :=
  a.num * tenPow b.exp < b.num * tenPow a.exp

instance (a b : Dec) : Decidable (a.Eqv b) :=
  inferInstanceAs (Decidable (a.num * tenPow b.exp = b.num * tenPow a.exp))

instance (a b : Dec) : Decidable (a.Le b) :=
  inferInstanceAs (Decidable (a.num * tenPow b.exp ≤ b.num * tenPow a.exp))

instance (a b : Dec) : Decidable (a.Lt b) :=
  inferInstanceAs (Decidable (a.num * tenPow b.exp < b.num * tenPow a.exp))

/-- Exact (unrounded) decimal difference: align both operands to the
larger fractional exponent and subtract mantissas.  This is the value
`Decimal` subtraction computes before the arithmetic context rounds it. -/
def Dec.subExact (a b : Dec) : Dec :=
  ⟨a.num * tenPow (max a.exp b.exp - a.exp) -
      b.num * tenPow (max a.exp b.exp - b.exp),
    max a.exp b.exp⟩

/-- Count of decimal digits, with explicit fuel so that it evaluates
inside the kernel; the fuel (first argument) is always sufficient when it
is at least the number itself. -/
def numDigitsAux : ℕ → ℕ → ℕ
  | 0, _ => 1
  | fuel + 1, n => if n < 10 then 1 else numDigitsAux fuel (n / 10) + 1

/-- Number of decimal digits of a natural number (1 for 0), matching the
coefficient-length notion of the `decimal` module. -/
def numDigits (n : ℕ) : ℕ :=
  numDigitsAux n n

/-- Natural-number power of ten, written with structural recursion so that
it evaluates inside the kernel. -/
def tenPowN : ℕ → ℕ
  | 0 => 1
  | n + 1 => 10 * tenPowN n

/-- Round a decimal so that its coefficient has at most `prec` significant
digits, using round-half-even on the magnitude — what the `decimal`
module's context does to every arithmetic result (default precision 28).
A coefficient already within `prec` digits is returned unchanged.  The
value-preserving carry normalization `decimal` applies when rounding up
overflows to `10 ^ prec` (dividing the coefficient by ten and raising the
exponent) is omitted, as is the positive-exponent form for magnitudes
beyond the fractional digits: neither changes the denoted value. -/
def Dec.roundTo (prec : ℕ) (a : Dec) : Dec :=
  let m := a.num.natAbs
  if numDigits m ≤ prec then a
  else
    let k := numDigits m - prec
    let p := tenPowN k
    let q := m / p
    let r := m % p
    let q2 := if 2 * r < p then q
      else if p < 2 * r then q + 1
      else if q % 2 = 0 then q else q + 1
    let sq : ℤ := if a.num < 0 then -(q2 : ℤ) else (q2 : ℤ)
    if k ≤ a.exp then ⟨sq, a.exp - k⟩
    else ⟨sq * tenPow (k - a.exp), 0⟩

/-- Embedding of Python `Decimal` subtraction under the default context:
the exact difference rounded to 28 significant digits. -/
def Dec.sub (a b : Dec) : Dec :=
  (a.subExact b).roundTo 28

/-- Splitting a character list by the dot character, written with
structural recursion so that it evaluates inside the kernel. -/
def splitOnDot : List Char → List (List Char)
  | [] => [[]]
  | c :: rest =>
      let r := splitOnDot rest
      if c = '.' then [] :: r
      else
        match r with
        | [] => [[c]]
        | h :: t => (c :: h) :: t

/-- Natural number denoted by a digit string (most significant first). -/
def natOfDigits (l : List Char) : ℕ :=
  l.foldl (fun a c => 10 * a + (c.toNat - 48)) 0

/-- Parse an unsigned decimal literal (digits, optionally with a fractional
part after one dot) to an exact decimal.  Mirrors the grammar shared by
Python `float(...)` and `Decimal(...)` on plain decimal strings: at least
one digit overall, `"5."` and `".5"` both accepted, anything containing a
non-digit elsewhere rejected (exponent forms and the infinity/nan spellings
play no role in these properties and are rejected too). -/
def parseUnsigned (l : List Char) : Option Dec :=
  match splitOnDot l with
  | [ip] =>
      if ip ≠ [] ∧ ip.all Char.isDigit then
        some ⟨(natOfDigits ip : ℤ), 0⟩
      else none
  | [ip, fp] =>
      if (ip ≠ [] ∨ fp ≠ []) ∧ ip.all Char.isDigit ∧ fp.all Char.isDigit then
        some ⟨(natOfDigits ip : ℤ) * tenPow fp.length + (natOfDigits fp : ℤ),
          fp.length⟩
      else none
  | _ => none

/-- Parse a decimal literal with an optional leading sign. -/
def parseDec (s : String) : Option Dec :=
  match s.data with
  | '-' :: rest => (parseUnsigned rest).map (fun d => ⟨-d.num, d.exp⟩)
  | '+' :: rest => parseUnsigned rest
  | l => parseUnsigned l

/-- Association-list embedding of a Python dict from price to size. -/
abbrev PyDict := List (Dec × Dec)

/-- Membership test for a key, `k in d`, by numeric key equality. -/
def dictMem (d : PyDict) (k : Dec) : Bool :=
  d.any (fun p => decide (p.1.Eqv k))

/-- Embedding of `d[k] = v`: overwrite the value in place when the key
exists (keeping the originally inserted key and its position), append at
the end otherwise (CPython dict semantics). -/
def dictSet (d : PyDict) (k v : Dec) : PyDict :=
  if dictMem d k then
    d.map (fun p => if p.1.Eqv k then (p.1, v) else p)
  else d ++ [(k, v)]

/-- Embedding of `d.pop(k)` with no default: remove the key when present,
raise `KeyError` (return `none`) when absent. -/
def dictPop (d : PyDict) (k : Dec) : Option PyDict :=
  if dictMem d k then
    some (d.filter (fun p => !(decide (p.1.Eqv k))))
  else none

/-- Embedded `BybitWsOrderbookDepth` wire struct: per-side lists of
(price string, size string) pairs; unread fields omitted. -/
structure BybitWsOrderbookDepth where
  b : List (String × String)
  a : List (String × String)
deriving DecidableEq, Repr

/-- Embedded `BybitWsOrderbookDepthMsg`: event type tag plus payload. -/
structure BybitWsOrderbookDepthMsg where
  type : String
  data : BybitWsOrderbookDepth
deriving DecidableEq, Repr

/-- Embedded `BybitOrderBook` state: two price-to-size dicts. -/
structure BybitOrderBook where
  bids : PyDict := []
  asks : PyDict := []
deriving DecidableEq, Repr

/-- Loop body of `_handle_snapshot` for one side: `for price, size in rows:
d[float(price)] = float(size)`.  Stops at the first malformed string with
the dict as mutated so far and a `ValueError`. -/
def snapshotInsert (d : PyDict) : List (String × String) → PyDict × Option PyErr
  | [] => (d, none)
  | (ps, ss) :: rest =>
      match parseDec ss, parseDec ps with
      | some s, some p => snapshotInsert (dictSet d p s) rest
      | _, _ => (d, some PyErr.valueError)

/-- Loop body of `_handle_delta` for one side: a zero parsed size pops the
key (raising `KeyError` when the key is absent, since the `pop` call passes
no default), a nonzero size upserts.  Stops at the first exception with the
dict as mutated so far. -/
def deltaApply (d : PyDict) : List (String × String) → PyDict × Option PyErr
  | [] => (d, none)
  | (ps, ss) :: rest =>
      match parseDec ss with
      | none => (d, some PyErr.valueError)
      | some s =>
          if s.num = 0 then
            match parseDec ps with
            | none => (d, some PyErr.valueError)
            | some p =>
                match dictPop d p with
                | none => (d, some PyErr.keyError)
                | some d2 => deltaApply d2 rest
          else
            match parseDec ps with
            | none => (d, some PyErr.valueError)
            | some p => deltaApply (dictSet d p s) rest

/-- Embedding of `BybitOrderBook._handle_snapshot`: clear each side whose
incoming list is non-empty, then insert every pair of both sides.  An
exception while inserting bids leaves the ask clear (which has already
happened) in force but performs no ask inserts, exactly as in the Python
statement order. -/
def BybitOrderBook._handle_snapshot (ob : BybitOrderBook)
    (data : BybitWsOrderbookDepth) : BybitOrderBook × Option PyErr :=
  match snapshotInsert (if data.b ≠ [] then [] else ob.bids) data.b with
  | (bids1, some e) => (⟨bids1, if data.a ≠ [] then [] else ob.asks⟩, some e)
  | (bids1, none) =>
      match snapshotInsert (if data.a ≠ [] then [] else ob.asks) data.a with
      | (asks1, e) => (⟨bids1, asks1⟩, e)

/-- Embedding of `BybitOrderBook._handle_delta`: apply the bid changes,
then the ask changes; an exception on the bid side leaves the asks
untouched. -/
def BybitOrderBook._handle_delta (ob : BybitOrderBook)
    (data : BybitWsOrderbookDepth) : BybitOrderBook × Option PyErr :=
  match deltaApply ob.bids data.b with
  | (bids1, some e) => (⟨bids1, ob.asks⟩, some e)
  | (bids1, none) =>
      match deltaApply ob.asks data.a with
      | (asks1, e) => (⟨bids1, asks1⟩, e)

/-- Order on book levels by price, used for read-time sorting (dict keys
are numerically distinct, so Python's lexicographic tuple comparison in
`sorted` coincides with comparison of prices). -/
def levelLe (x y : Dec × Dec) : Prop :=
  Dec.Le x.1 y.1

instance : DecidableRel levelLe :=
  fun x y => inferInstanceAs (Decidable (Dec.Le x.1 y.1))

instance : IsTotal (Dec × Dec) levelLe :=
  ⟨fun x y =>
    Int.le_total (x.1.num * tenPow y.1.exp) (y.1.num * tenPow x.1.exp)⟩

instance : IsTrans (Dec × Dec) levelLe :=
  ⟨fun x y z hxy hyz => by
    have hp : ∀ n : ℕ, (0 : ℤ) < tenPow n := by
      intro n
      induction n with
      | zero => norm_num [tenPow]
      | succ k ih => simp only [tenPow]; exact mul_pos (by norm_num) ih
    simp only [levelLe, Dec.Le] at hxy hyz ⊢
    have h1 := mul_le_mul_of_nonneg_right hxy (hp z.1.exp).le
    have h2 := mul_le_mul_of_nonneg_right hyz (hp x.1.exp).le
    have h3 : x.1.num * tenPow z.1.exp * tenPow y.1.exp ≤
        z.1.num * tenPow x.1.exp * tenPow y.1.exp := by nlinarith
    exact le_of_mul_le_mul_right h3 (hp y.1.exp)⟩

/-- Ascending stable sort of dict items by price, `sorted(d.items())`. -/
def sortAsc (d : PyDict) : PyDict :=
  d.insertionSort levelLe

/-- Descending stable sort, `sorted(d.items(), reverse=True)`; with
numerically distinct keys this is the reverse of the ascending sort. -/
def sortDesc (d : PyDict) : PyDict :=
  (sortAsc d).reverse

/-- The view returned by `_get_orderbook` (each level a BookOrderData with
price and size). -/
structure OrderBookView where
  bids : List (Dec × Dec)
  asks : List (Dec × Dec)
deriving DecidableEq, Repr

/-- Embedding of `BybitOrderBook._get_orderbook`: bids sorted descending,
asks ascending, each truncated to the first `levels` entries. -/
def BybitOrderBook._get_orderbook (ob : BybitOrderBook) (levels : ℕ) :
    OrderBookView :=
  ⟨(sortDesc ob.bids).take levels, (sortAsc ob.asks).take levels⟩

/-- Embedding of `BybitOrderBook.parse_orderbook_depth`: dispatch on the
message type string (any other type falls through both branches), then
return the current view.  On an exception no view is produced (the Python
method never reaches its `return`). -/
def BybitOrderBook.parse_orderbook_depth (ob : BybitOrderBook)
    (msg : BybitWsOrderbookDepthMsg) (levels : ℕ) :
    (BybitOrderBook × Option PyErr) × Option OrderBookView :=
  let r :=
    if msg.type = "snapshot" then ob._handle_snapshot msg.data
    else if msg.type = "delta" then ob._handle_delta msg.data
    else (ob, none)
  (r, if r.2 = none then some (r.1._get_orderbook levels) else none)

/-- Embedded `BybitWsTicker` wire struct: the fields that `BybitTicker`
reads, plus `lastPrice` (carried on the wire but never read by the state
code); the remaining statistics fields are omitted. -/
structure BybitWsTicker where
  symbol : String
  lastPrice : Option String := none
  markPrice : Option String := none
  indexPrice : Option String := none
  nextFundingTime : Option String := none
  fundingRate : Option String := none
deriving DecidableEq, Repr

/-- Embedded `BybitWsTickerMsg`. -/
structure BybitWsTickerMsg where
  type : String
  data : BybitWsTicker
deriving DecidableEq, Repr

/-- Embedded `BybitTicker` state: the five stored fields of the Python
struct (symbol plus four market-data fields; there is no stored last trade
price). -/
structure BybitTicker where
  symbol : Option String := none
  markPrice : Option String := none
  indexPrice : Option String := none
  nextFundingTime : Option String := none
  fundingRate : Option String := none
deriving DecidableEq, Repr

/-- Embedding of `BybitTicker.handle_snapshot`: unconditionally assign all
five stored fields from the event. -/
def BybitTicker.handle_snapshot (t : BybitTicker) (data : BybitWsTicker) :
    BybitTicker :=
  { t with
    symbol := some data.symbol
    markPrice := data.markPrice
    indexPrice := data.indexPrice
    nextFundingTime := data.nextFundingTime
    fundingRate := data.fundingRate }

/-- Embedding of `BybitTicker.handle_delta`: assign each of the four
market-data fields only when the event carries it (`is not None`); the
symbol is not touched. -/
def BybitTicker.handle_delta (t : BybitTicker) (data : BybitWsTicker) :
    BybitTicker :=
  let t1 := if data.markPrice ≠ none then
    { t with markPrice := data.markPrice } else t
  let t2 := if data.indexPrice ≠ none then
    { t1 with indexPrice := data.indexPrice } else t1
  let t3 := if data.nextFundingTime ≠ none then
    { t2 with nextFundingTime := data.nextFundingTime } else t2
  if data.fundingRate ≠ none then
    { t3 with fundingRate := data.fundingRate } else t3

/-- Embedding of `BybitTicker.parse_ticker`: dispatch on the message type
string (any other type falls through both branches) and return the ticker
itself. -/
def BybitTicker.parse_ticker (t : BybitTicker) (msg : BybitWsTickerMsg) :
    BybitTicker :=
  if msg.type = "snapshot" then t.handle_snapshot msg.data
  else if msg.type = "delta" then t.handle_delta msg.data
  else t

/-- Embedded normalized `Balance` output record. -/
structure Balance where
  asset : String
  free : Dec
  locked : Dec
deriving DecidableEq, Repr

/-- Embedded `BybitCoinBalance` wire struct (REST wallet entry): the fields
that `parse_to_balance` reads; margin and collateral fields omitted. -/
structure BybitCoinBalance where
  walletBalance : String
  locked : String
  coin : String
deriving DecidableEq, Repr

/-- Embedding of `BybitCoinBalance.parse_to_balance`: parse `locked`, then
`free = Decimal(walletBalance) - locked`; a parse failure raises
(`none`). -/
def BybitCoinBalance.parse_to_balance (c : BybitCoinBalance) :
    Option Balance :=
  match parseDec c.locked with
  | none => none
  | some locked =>
      match parseDec c.walletBalance with
      | none => none
      | some total => some ⟨c.coin, total.sub locked, locked⟩

/-- Embedded `BybitWsAccountWalletCoin` wire struct (websocket wallet
entry): the fields that `parse_to_balance` reads. -/
structure BybitWsAccountWalletCoin where
  coin : String
  walletBalance : String
  locked : String
deriving DecidableEq, Repr

/-- Embedding of `BybitWsAccountWalletCoin.parse_to_balance`: parse
`walletBalance` as `total`, then `locked`, then `free = total - locked`. -/
def BybitWsAccountWalletCoin.parse_to_balance
    (c : BybitWsAccountWalletCoin) : Option Balance :=
  match parseDec c.walletBalance with
  | none => none
  | some total =>
      match parseDec c.locked with
      | none => none
      | some locked => some ⟨c.coin, total.sub locked, locked⟩

/-- Parse every (price string, size string) pair of a side, failing if any
string is malformed. -/
def parsePairs : List (String × String) → Option (List (Dec × Dec))
  | [] => some []
  | (ps, ss) :: rest =>
      match parseDec ps, parseDec ss with
      | some p, some s => (parsePairs rest).map (fun L => (p, s) :: L)
      | _, _ => none

/-- Sequential dict upserts of a list of parsed pairs. -/
def applyPairs (d : PyDict) (L : List (Dec × Dec)) : PyDict :=
  L.foldl (fun d q => dictSet d q.1 q.2) d


/-! Sanity checks of the embedding on concrete inputs. -/

example : parseDec "100.25" = some ⟨10025, 2⟩ := by decide
example : parseDec "-3" = some ⟨-3, 0⟩ := by decide
example : parseDec "abc" = none := by decide
example : parseDec "0.0" = some ⟨0, 1⟩ := by decide
example : parseDec "1.2.3" = none := by decide
example : Dec.Eqv ⟨10, 1⟩ ⟨1, 0⟩ := by decide
example : Dec.sub ⟨100123456789012345678, 18⟩ ⟨1, 18⟩ =
    ⟨100123456789012345677, 18⟩ := by decide
example : Dec.sub ⟨999999999999999999999999999999, 18⟩ ⟨1, 18⟩ =
    ⟨10000000000000000000000000000, 16⟩ := by decide
example : numDigits 999999999999999999999999999998 = 30 := by decide
example :
    BybitOrderBook._handle_delta ⟨[], []⟩ ⟨[("1", "0")], []⟩ =
      (⟨[], []⟩, some PyErr.keyError) := by decide
example :
    BybitOrderBook._handle_snapshot ⟨[(⟨5, 0⟩, ⟨5, 0⟩)], []⟩
        ⟨[("1", "0")], []⟩ =
      (⟨[(⟨1, 0⟩, ⟨0, 0⟩)], []⟩, none) := by decide
example :
    BybitOrderBook._get_orderbook
        ⟨[(⟨99, 0⟩, ⟨3, 0⟩), (⟨100, 0⟩, ⟨5, 0⟩)], [(⟨101, 0⟩, ⟨2, 0⟩)]⟩ 1 =
      ⟨[(⟨100, 0⟩, ⟨5, 0⟩)], [(⟨101, 0⟩, ⟨2, 0⟩)]⟩ := by decide

theorem tenPow_pos (n : ℕ) : 0 < tenPow n := by
  induction n with
  | zero => simp [tenPow]
  | succ k ih => simpa [tenPow] using by positivity

theorem tenPow_add (m n : ℕ) : tenPow (m + n) = tenPow m * tenPow n := by
  induction m with
  | zero => simp [tenPow]
  | succ k ih => simp [tenPow, Nat.succ_add, ih]; ring

theorem tenPow_cast_pos (n : ℕ) : (0 : ℚ) < ((tenPow n : ℤ) : ℚ) := by
  exact_mod_cast tenPow_pos n

theorem tenPow_cast_ne (n : ℕ) : ((tenPow n : ℤ) : ℚ) ≠ 0 :=
  ne_of_gt (tenPow_cast_pos n)

/-- The executable value equality coincides with equality of denoted
rationals. -/
theorem Dec.eqv_iff_toRat (a b : Dec) : a.Eqv b ↔ a.toRat = b.toRat := by
  rw [Dec.Eqv, Dec.toRat, Dec.toRat,
    div_eq_div_iff (tenPow_cast_ne a.exp) (tenPow_cast_ne b.exp)]
  constructor
  · intro h; exact_mod_cast h
  · intro h; exact_mod_cast h

/-- The executable order coincides with the order of denoted rationals. -/
theorem Dec.le_iff_toRat (a b : Dec) : a.Le b ↔ a.toRat ≤ b.toRat := by
  rw [Dec.Le, Dec.toRat, Dec.toRat,
    div_le_div_iff₀ (tenPow_cast_pos a.exp) (tenPow_cast_pos b.exp)]
  constructor
  · intro h; exact_mod_cast h
  · intro h; exact_mod_cast h

/-- The executable strict order coincides with the strict order of denoted
rationals. -/
theorem Dec.lt_iff_toRat (a b : Dec) : a.Lt b ↔ a.toRat < b.toRat := by
  rw [Dec.Lt, Dec.toRat, Dec.toRat,
    div_lt_div_iff₀ (tenPow_cast_pos a.exp) (tenPow_cast_pos b.exp)]
  constructor
  · intro h; exact_mod_cast h
  · intro h; exact_mod_cast h

/-- The unrounded decimal difference computes the exact rational
difference. -/
theorem Dec.toRat_subExact (a b : Dec) :
    (a.subExact b).toRat = a.toRat - b.toRat := by
  have ha : a.exp + (max a.exp b.exp - a.exp) = max a.exp b.exp :=
    Nat.add_sub_cancel' (Nat.le_max_left _ _)
  have hb : b.exp + (max a.exp b.exp - b.exp) = max a.exp b.exp :=
    Nat.add_sub_cancel' (Nat.le_max_right _ _)
  have h1 : tenPow a.exp * tenPow (max a.exp b.exp - a.exp) =
      tenPow (max a.exp b.exp) := by rw [← tenPow_add, ha]
  have h2 : tenPow b.exp * tenPow (max a.exp b.exp - b.exp) =
      tenPow (max a.exp b.exp) := by rw [← tenPow_add, hb]
  have h1q : ((tenPow a.exp : ℤ) : ℚ) *
      ((tenPow (max a.exp b.exp - a.exp) : ℤ) : ℚ) =
      ((tenPow (max a.exp b.exp) : ℤ) : ℚ) := by exact_mod_cast h1
  have h2q : ((tenPow b.exp : ℤ) : ℚ) *
      ((tenPow (max a.exp b.exp - b.exp) : ℤ) : ℚ) =
      ((tenPow (max a.exp b.exp) : ℤ) : ℚ) := by exact_mod_cast h2
  rw [Dec.toRat, Dec.toRat, Dec.toRat, Dec.subExact,
    div_sub_div _ _ (tenPow_cast_ne a.exp) (tenPow_cast_ne b.exp),
    div_eq_div_iff (tenPow_cast_ne (max a.exp b.exp))
      (by exact mul_ne_zero (tenPow_cast_ne a.exp) (tenPow_cast_ne b.exp))]
  push_cast
  linear_combination ((a.num : ℚ) * ((tenPow b.exp : ℤ) : ℚ)) * h1q -
    ((b.num : ℚ) * ((tenPow a.exp : ℤ) : ℚ)) * h2q

theorem Dec.Eqv.symm {a b : Dec} (h : a.Eqv b) : b.Eqv a := by
  rw [Dec.eqv_iff_toRat] at h ⊢; exact h.symm

/-- Context rounding leaves a result unchanged when its coefficient is
already within the precision. -/
theorem Dec.roundTo_eq_of_le (prec : ℕ) (a : Dec)
    (h : numDigits a.num.natAbs ≤ prec) : a.roundTo prec = a := by
  simp [Dec.roundTo, h]

/-- Decimal subtraction is exact whenever the exact difference fits the
28-significant-digit context. -/
theorem Dec.toRat_sub_of_fits (a b : Dec)
    (h : numDigits (a.subExact b).num.natAbs ≤ 28) :
    (a.sub b).toRat = a.toRat - b.toRat := by
  rw [Dec.sub, Dec.roundTo_eq_of_le 28 _ h, Dec.toRat_subExact]

theorem applyPairs_nil (d : PyDict) : applyPairs d [] = d := rfl

theorem applyPairs_cons (d : PyDict) (q : Dec × Dec) (L : List (Dec × Dec)) :
    applyPairs d (q :: L) = applyPairs (dictSet d q.1 q.2) L := rfl

theorem snapshotInsert_append (raw₁ raw₂ : List (String × String))
    (L : List (Dec × Dec)) (h : parsePairs raw₁ = some L) (d : PyDict) :
    snapshotInsert d (raw₁ ++ raw₂) = snapshotInsert (applyPairs d L) raw₂ := by
  induction raw₁ generalizing L d with
  | nil =>
      simp only [parsePairs, Option.some.injEq] at h
      subst h
      simp [applyPairs]
  | cons hd tl ih =>
      obtain ⟨ps, ss⟩ := hd
      simp only [parsePairs] at h
      cases hps : parseDec ps with
      | none => rw [hps] at h; simp at h
      | some p =>
          cases hss : parseDec ss with
          | none => rw [hps, hss] at h; simp at h
          | some s =>
              rw [hps, hss] at h
              cases hrest : parsePairs tl with
              | none => rw [hrest] at h; simp at h
              | some L' =>
                  rw [hrest] at h
                  have hL : (p, s) :: L' = L := by simpa using h
                  subst hL
                  rw [List.cons_append]
                  simp only [snapshotInsert, hps, hss, applyPairs_cons]
                  exact ih L' hrest (dictSet d p s)

theorem snapshotInsert_eq (raw : List (String × String))
    (L : List (Dec × Dec)) (h : parsePairs raw = some L) (d : PyDict) :
    snapshotInsert d raw = (applyPairs d L, none) := by
  have := snapshotInsert_append raw [] L h d
  rw [List.append_nil] at this
  rw [this]
  rfl

theorem deltaApply_append (raw₁ raw₂ : List (String × String))
    (L : List (Dec × Dec)) (h : parsePairs raw₁ = some L)
    (hnz : ∀ q ∈ L, q.2.num ≠ 0) (d : PyDict) :
    deltaApply d (raw₁ ++ raw₂) = deltaApply (applyPairs d L) raw₂ := by
  induction raw₁ generalizing L d with
  | nil =>
      simp only [parsePairs, Option.some.injEq] at h
      subst h
      simp [applyPairs]
  | cons hd tl ih =>
      obtain ⟨ps, ss⟩ := hd
      simp only [parsePairs] at h
      cases hps : parseDec ps with
      | none => rw [hps] at h; simp at h
      | some p =>
          cases hss : parseDec ss with
          | none => rw [hps, hss] at h; simp at h
          | some s =>
              rw [hps, hss] at h
              cases hrest : parsePairs tl with
              | none => rw [hrest] at h; simp at h
              | some L' =>
                  rw [hrest] at h
                  have hL : (p, s) :: L' = L := by simpa using h
                  subst hL
                  have h0 : s.num ≠ 0 := hnz (p, s) (by simp)
                  rw [List.cons_append]
                  simp only [deltaApply, hps, hss, if_neg h0, applyPairs_cons]
                  exact ih L' hrest
                    (fun q hq => hnz q (List.mem_cons_of_mem _ hq)) (dictSet d p s)

theorem deltaApply_eq (raw : List (String × String)) (L : List (Dec × Dec))
    (h : parsePairs raw = some L) (hnz : ∀ q ∈ L, q.2.num ≠ 0) (d : PyDict) :
    deltaApply d raw = (applyPairs d L, none) := by
  have := deltaApply_append raw [] L h hnz d
  rw [List.append_nil] at this
  rw [this]
  rfl

theorem dictMem_append (d₁ d₂ : PyDict) (k : Dec) :
    dictMem (d₁ ++ d₂) k = (dictMem d₁ k || dictMem d₂ k) := by
  simp [dictMem, List.any_append]

/-- Upserting pairs whose keys are absent from the dict and pairwise
numerically distinct appends them in order. -/
theorem applyPairs_fresh (L : List (Dec × Dec)) : ∀ d : PyDict,
    (∀ q ∈ L, dictMem d q.1 = false) →
    L.Pairwise (fun x y => ¬ x.1.Eqv y.1) →
    applyPairs d L = d ++ L := by
  induction L with
  | nil => intro d _ _; simp [applyPairs]
  | cons q rest ih =>
      intro d hfresh hpair
      have hq : dictMem d q.1 = false := hfresh q (by simp)
      have hset : dictSet d q.1 q.2 = d ++ [q] := by
        rw [dictSet, if_neg (by simp [hq])]
      rw [applyPairs_cons, hset, ih]
      · simp
      · intro q' hq'
        have h1 : dictMem d q'.1 = false := hfresh q' (by simp [hq'])
        have h2 : ¬ q.1.Eqv q'.1 := (List.pairwise_cons.mp hpair).1 q' hq'
        rw [dictMem_append, h1]
        simp [dictMem, h2]
      · exact (List.pairwise_cons.mp hpair).2

theorem dictSet_sizes (P : Dec → Prop) {d : PyDict} {k v : Dec}
    (hd : ∀ q ∈ d, P q.2) (hv : P v) : ∀ q ∈ dictSet d k v, P q.2 := by
  intro q hq
  rw [dictSet] at hq
  split at hq
  · rcases List.mem_map.mp hq with ⟨p, hp, rfl⟩
    split
    · exact hv
    · exact hd p hp
  · rcases List.mem_append.mp hq with h | h
    · exact hd q h
    · rcases List.mem_singleton.mp h with rfl
      exact hv

theorem dictPop_subset {d d2 : PyDict} {k : Dec}
    (h : dictPop d k = some d2) : ∀ q ∈ d2, q ∈ d := by
  rw [dictPop] at h
  split at h
  · cases h
    exact fun q hq => (List.mem_filter.mp hq).1
  · cases h

/-- Delta processing never introduces a size breaking a per-size predicate
preserved by its upserts: with `P` instantiated to being nonzero, the
stored size in an upsert satisfies it because the zero test routed zero
sizes to the removal branch. -/
theorem deltaApply_sizes (raw : List (String × String)) : ∀ d : PyDict,
    (∀ q ∈ d, q.2.num ≠ 0) →
    ∀ q ∈ (deltaApply d raw).1, q.2.num ≠ 0 := by
  induction raw with
  | nil => intro d hd; simpa [deltaApply] using hd
  | cons hd' tl ih =>
      intro d hd
      obtain ⟨ps, ss⟩ := hd'
      simp only [deltaApply]
      cases hss : parseDec ss with
      | none => simpa using hd
      | some s =>
          dsimp only
          by_cases h0 : s.num = 0
          · rw [if_pos h0]
            cases hps : parseDec ps with
            | none => simpa using hd
            | some p =>
                dsimp only
                cases hpop : dictPop d p with
                | none => simpa using hd
                | some d2 =>
                    dsimp only
                    exact ih d2 (fun q hq => hd q (dictPop_subset hpop q hq))
          · rw [if_neg h0]
            cases hps : parseDec ps with
            | none => simpa using hd
            | some p =>
                dsimp only
                exact ih (dictSet d p s)
                  (dictSet_sizes (fun x => x.num ≠ 0) hd h0)

theorem Dec.lt_of_le_not_eqv {a b : Dec} (h1 : a.Le b) (h2 : ¬ a.Eqv b) :
    a.Lt b := by
  rw [Dec.le_iff_toRat] at h1
  rw [Dec.eqv_iff_toRat] at h2
  rw [Dec.lt_iff_toRat]
  exact lt_of_le_of_ne h1 h2

theorem sortAsc_perm (d : PyDict) : (sortAsc d).Perm d :=
  List.perm_insertionSort levelLe d

theorem sortAsc_sorted (d : PyDict) : (sortAsc d).Pairwise levelLe :=
  List.sorted_insertionSort levelLe d

/-- On a dict with numerically distinct keys the read-time ascending sort
is strictly ascending in price. -/
theorem sortAsc_strict (d : PyDict)
    (hd : d.Pairwise fun x y => ¬ x.1.Eqv y.1) :
    (sortAsc d).Pairwise fun x y => x.1.Lt y.1 := by
  have hne : (sortAsc d).Pairwise fun x y => ¬ x.1.Eqv y.1 :=
    (List.Perm.pairwise_iff (fun h hxy => h hxy.symm) (sortAsc_perm d)).mpr hd
  exact ((sortAsc_sorted d).and hne).imp
    (fun h => Dec.lt_of_le_not_eqv h.1 h.2)

theorem snapshotInsert_bad (d : PyDict) (ps ss : String)
    (rest : List (String × String))
    (hbad : parseDec ps = none ∨ parseDec ss = none) :
    snapshotInsert d ((ps, ss) :: rest) = (d, some PyErr.valueError) := by
  rcases hbad with h | h
  · cases hss : parseDec ss with
    | none => simp [snapshotInsert, hss]
    | some s => simp [snapshotInsert, hss, h]
  · simp [snapshotInsert, h]

/-- C1, amended: processing a single zero-size bid pair removes the price
key when a numerically equal key is present, but raises `KeyError` (the
`pop` call passes no default) when the key is absent, instead of the
idempotent no-op the claim states. -/
theorem delta_zero_size_removal (ob : BybitOrderBook) (ps ss : String)
    (p s : Dec) (hps : parseDec ps = some p) (hss : parseDec ss = some s)
    (h0 : s.num = 0) :
    ob._handle_delta ⟨[(ps, ss)], []⟩ =
      if dictMem ob.bids p then
        (⟨ob.bids.filter (fun q => !(decide (q.1.Eqv p))), ob.asks⟩, none)
      else (ob, some PyErr.keyError) := by
  by_cases hmem : dictMem ob.bids p
  · simp [BybitOrderBook._handle_delta, deltaApply, hss, hps, h0, dictPop,
      hmem]
  · simp [BybitOrderBook._handle_delta, deltaApply, hss, hps, h0, dictPop,
      hmem]

/-- C1 witness: on a book holding price 1, the zero-size delta for price 1
takes the removal branch of the amended statement. -/
theorem delta_zero_size_removal_witness :
    BybitOrderBook._handle_delta ⟨[(⟨1, 0⟩, ⟨2, 0⟩)], []⟩
        ⟨[("1", "0")], []⟩ =
      if dictMem [(⟨1, 0⟩, ⟨2, 0⟩)] ⟨1, 0⟩ then
        (⟨List.filter (fun q => !(decide (q.1.Eqv ⟨1, 0⟩)))
            [(⟨1, 0⟩, ⟨2, 0⟩)], []⟩, none)
      else (⟨[(⟨1, 0⟩, ⟨2, 0⟩)], []⟩, some PyErr.keyError) :=
  delta_zero_size_removal ⟨[(⟨1, 0⟩, ⟨2, 0⟩)], []⟩ "1" "0" ⟨1, 0⟩ ⟨0, 0⟩
    (by decide) (by decide) (by decide)

/-- C1 counterexample: a zero-size delta for a price that was never
inserted raises `KeyError` instead of being the claimed error-free
no-op. -/
theorem delta_zero_size_removal_cex :
    BybitOrderBook._handle_delta ⟨[], []⟩ ⟨[("1", "0")], []⟩ =
      (⟨[], []⟩, some PyErr.keyError) := by decide

/-- C2, amended: the delta path never stores a zero size (a zero parsed
size is routed to the removal branch), so delta processing preserves
all-nonzero stored sizes on both sides; the snapshot path, however, stores
its pairs unfiltered (see the counterexample). -/
theorem delta_preserves_nonzero_sizes (ob : BybitOrderBook)
    (data : BybitWsOrderbookDepth)
    (hb : ∀ q ∈ ob.bids, q.2.num ≠ 0) (ha : ∀ q ∈ ob.asks, q.2.num ≠ 0) :
    (∀ q ∈ (ob._handle_delta data).1.bids, q.2.num ≠ 0) ∧
    (∀ q ∈ (ob._handle_delta data).1.asks, q.2.num ≠ 0) := by
  have hb1 := deltaApply_sizes data.b ob.bids hb
  have ha1 := deltaApply_sizes data.a ob.asks ha
  unfold BybitOrderBook._handle_delta
  rcases h1 : deltaApply ob.bids data.b with ⟨bids1, e1⟩
  rw [h1] at hb1
  cases e1 with
  | some e => exact ⟨by simpa using hb1, by simpa using ha⟩
  | none =>
      rcases h2 : deltaApply ob.asks data.a with ⟨asks1, e2⟩
      rw [h2] at ha1
      exact ⟨by simpa using hb1, by simpa [h2] using ha1⟩

/-- C2 witness: a nonzero-size delta upsert on a book with nonzero sizes
leaves all stored sizes nonzero. -/
theorem delta_preserves_nonzero_sizes_witness :
    (∀ q ∈ (BybitOrderBook.mk [(⟨1, 0⟩, ⟨2, 0⟩)] []).bids,
      q.2.num ≠ 0) ∧
    ((∀ q ∈ ((BybitOrderBook.mk [(⟨1, 0⟩, ⟨2, 0⟩)] [])._handle_delta
        ⟨[("1", "3")], []⟩).1.bids, q.2.num ≠ 0) ∧
      (∀ q ∈ ((BybitOrderBook.mk [(⟨1, 0⟩, ⟨2, 0⟩)] [])._handle_delta
        ⟨[("1", "3")], []⟩).1.asks, q.2.num ≠ 0)) :=
  ⟨by decide, delta_preserves_nonzero_sizes _ _ (by decide) (by decide)⟩

/-- C2 counterexample: a snapshot whose level list carries size string
"0" stores that level with size 0 (mantissa 0), so a zero size is
persisted and the strict-positivity invariant fails. -/
theorem snapshot_stores_zero_size_cex :
    BybitOrderBook._handle_snapshot ⟨[], []⟩ ⟨[("1", "0")], []⟩ =
      (⟨[(⟨1, 0⟩, ⟨0, 0⟩)], []⟩, none) ∧ (⟨0, 0⟩ : Dec).num = 0 := by
  decide

/-- C3, amended: a delta arriving on the initial (never-snapshotted) book
is not reported as an uninitialized-state error: the dispatcher applies it
directly to the empty book, silently creating and populating the book with
the delta's upserts (a zero-size pair would instead raise `KeyError`, not
any uninitialized-state signal). -/
theorem delta_before_snapshot_populates (msg : BybitWsOrderbookDepthMsg)
    (levels : ℕ) (Lb La : List (Dec × Dec))
    (ht : msg.type = "delta")
    (hLb : parsePairs msg.data.b = some Lb)
    (hnzb : ∀ q ∈ Lb, q.2.num ≠ 0)
    (hpb : Lb.Pairwise fun x y => ¬ x.1.Eqv y.1)
    (hLa : parsePairs msg.data.a = some La)
    (hnza : ∀ q ∈ La, q.2.num ≠ 0)
    (hpa : La.Pairwise fun x y => ¬ x.1.Eqv y.1) :
    BybitOrderBook.parse_orderbook_depth ⟨[], []⟩ msg levels =
      ((⟨Lb, La⟩, none),
        some (BybitOrderBook._get_orderbook ⟨Lb, La⟩ levels)) := by
  have hfb : applyPairs [] Lb = Lb := by
    simpa using applyPairs_fresh Lb [] (fun q hq => rfl) hpb
  have hfa : applyPairs [] La = La := by
    simpa using applyPairs_fresh La [] (fun q hq => rfl) hpa
  unfold BybitOrderBook.parse_orderbook_depth
  rw [ht, if_neg (by decide), if_pos rfl]
  unfold BybitOrderBook._handle_delta
  rw [show (⟨[], []⟩ : BybitOrderBook).bids = [] from rfl,
    show (⟨[], []⟩ : BybitOrderBook).asks = [] from rfl,
    deltaApply_eq msg.data.b Lb hLb hnzb [],
    deltaApply_eq msg.data.a La hLa hnza [], hfb, hfa]
  rfl

/-- C3 witness: the amended statement at a one-level bid delta on the
fresh empty book. -/
theorem delta_before_snapshot_populates_witness :
    BybitOrderBook.parse_orderbook_depth ⟨[], []⟩
        ⟨"delta", ⟨[("2", "3")], []⟩⟩ 1 =
      ((⟨[(⟨2, 0⟩, ⟨3, 0⟩)], []⟩, none),
        some (BybitOrderBook._get_orderbook ⟨[(⟨2, 0⟩, ⟨3, 0⟩)], []⟩ 1)) :=
  delta_before_snapshot_populates ⟨"delta", ⟨[("2", "3")], []⟩⟩ 1
    [(⟨2, 0⟩, ⟨3, 0⟩)] [] rfl (by decide) (by decide) (by decide)
    (by decide) (by decide) (by decide)

/-- C3 counterexample: a delta on the never-snapshotted empty book
succeeds with no error of any kind and leaves a populated book, where the
claim requires an uninitialized-state error and no silent population. -/
theorem delta_before_snapshot_cex :
    BybitOrderBook.parse_orderbook_depth ⟨[], []⟩
        ⟨"delta", ⟨[("1", "2")], []⟩⟩ 1 =
      ((⟨[(⟨1, 0⟩, ⟨2, 0⟩)], []⟩, none),
        some ⟨[(⟨1, 0⟩, ⟨2, 0⟩)], []⟩) := by decide

/-- C4, amended: a malformed string fails the event with `ValueError`, but
validation is interleaved with mutation, so the mutations already applied
stand: the bid side keeps the pairs inserted before the malformed one
(after having been cleared), and a non-empty ask side has been cleared
without being repopulated — events are not all-or-nothing. -/
theorem snapshot_interleaved_mutation (ob : BybitOrderBook)
    (data : BybitWsOrderbookDepth) (good : List (String × String))
    (ps ss : String) (rest : List (String × String))
    (Lg : List (Dec × Dec))
    (hb : data.b = good ++ (ps, ss) :: rest)
    (hLg : parsePairs good = some Lg)
    (hp : Lg.Pairwise fun x y => ¬ x.1.Eqv y.1)
    (hbad : parseDec ps = none ∨ parseDec ss = none) :
    ob._handle_snapshot data =
      (⟨Lg, if data.a ≠ [] then [] else ob.asks⟩,
        some PyErr.valueError) := by
  have hbne : data.b ≠ [] := by rw [hb]; simp
  have hfg : applyPairs [] Lg = Lg := by
    simpa using applyPairs_fresh Lg [] (fun q hq => rfl) hp
  unfold BybitOrderBook._handle_snapshot
  rw [if_pos hbne, hb,
    snapshotInsert_append good ((ps, ss) :: rest) Lg hLg [], hfg,
    snapshotInsert_bad Lg ps ss rest hbad]

/-- C4 witness: the amended statement at a snapshot whose second bid pair
has the malformed price string "x". -/
theorem snapshot_interleaved_mutation_witness :
    BybitOrderBook._handle_snapshot ⟨[(⟨5, 0⟩, ⟨5, 0⟩)], []⟩
        ⟨[("1", "2"), ("x", "3")], []⟩ =
      (⟨[(⟨1, 0⟩, ⟨2, 0⟩)],
        if ([] : List (String × String)) ≠ [] then []
        else (BybitOrderBook.mk [(⟨5, 0⟩, ⟨5, 0⟩)] []).asks⟩,
        some PyErr.valueError) :=
  snapshot_interleaved_mutation ⟨[(⟨5, 0⟩, ⟨5, 0⟩)], []⟩
    ⟨[("1", "2"), ("x", "3")], []⟩ [("1", "2")] "x" "3" []
    [(⟨1, 0⟩, ⟨2, 0⟩)] rfl (by decide) (by decide) (Or.inl (by decide))

/-- C4 counterexample: a snapshot with a malformed second bid pair fails
with `ValueError` yet leaves the book corrupted — the bid side holds the
first (already inserted) pair and the ask side was cleared and never
refilled — contradicting the claimed all-or-nothing behavior. -/
theorem snapshot_interleaved_mutation_cex :
    BybitOrderBook._handle_snapshot
        ⟨[(⟨5, 0⟩, ⟨5, 0⟩)], [(⟨7, 0⟩, ⟨1, 0⟩)]⟩
        ⟨[("1", "2"), ("x", "3")], [("7", "1")]⟩ =
      (⟨[(⟨1, 0⟩, ⟨2, 0⟩)], []⟩, some PyErr.valueError) ∧
    (⟨[(⟨1, 0⟩, ⟨2, 0⟩)], []⟩ : BybitOrderBook) ≠
      ⟨[(⟨5, 0⟩, ⟨5, 0⟩)], [(⟨7, 0⟩, ⟨1, 0⟩)]⟩ := by decide

/-- C5: a snapshot replaces each side carried non-empty in the message
with exactly the message's (price, size) pairs keyed by price, regardless
of the side's prior contents, and leaves a side whose list is empty
completely untouched. -/
theorem snapshot_replaces_sides (ob : BybitOrderBook)
    (data : BybitWsOrderbookDepth) (Lb La : List (Dec × Dec))
    (hLb : parsePairs data.b = some Lb) (hLa : parsePairs data.a = some La)
    (hpb : Lb.Pairwise fun x y => ¬ x.1.Eqv y.1)
    (hpa : La.Pairwise fun x y => ¬ x.1.Eqv y.1) :
    ob._handle_snapshot data =
      (⟨if data.b = [] then ob.bids else Lb,
        if data.a = [] then ob.asks else La⟩, none) := by
  have key : ∀ (raw : List (String × String)) (L : List (Dec × Dec))
      (prior : PyDict), parsePairs raw = some L →
      L.Pairwise (fun x y => ¬ x.1.Eqv y.1) →
      snapshotInsert (if raw ≠ [] then [] else prior) raw =
        (if raw = [] then prior else L, none) := by
    intro raw L prior hL hp
    by_cases hnil : raw = []
    · subst hnil
      simp only [parsePairs, Option.some.injEq] at hL
      subst hL
      simp [snapshotInsert]
    · rw [if_pos hnil, if_neg hnil, snapshotInsert_eq raw L hL]
      have hfresh : applyPairs [] L = L := by
        simpa using applyPairs_fresh L [] (fun q hq => rfl) hp
      rw [hfresh]
  unfold BybitOrderBook._handle_snapshot
  rw [key data.b Lb ob.bids hLb hpb, key data.a La ob.asks hLa hpa]

/-- C5 witness: a bids-only snapshot on a populated book replaces the bid
side with exactly the message pairs and leaves the (absent-from-message)
ask side untouched. -/
theorem snapshot_replaces_sides_witness :
    BybitOrderBook._handle_snapshot
        ⟨[(⟨1, 0⟩, ⟨9, 0⟩)], [(⟨7, 0⟩, ⟨1, 0⟩)]⟩
        ⟨[("100", "5"), ("99", "3")], []⟩ =
      (⟨if ([("100", "5"), ("99", "3")] : List (String × String)) = []
          then [(⟨1, 0⟩, ⟨9, 0⟩)]
          else [(⟨100, 0⟩, ⟨5, 0⟩), (⟨99, 0⟩, ⟨3, 0⟩)],
        if ([] : List (String × String)) = [] then [(⟨7, 0⟩, ⟨1, 0⟩)]
          else []⟩, none) :=
  snapshot_replaces_sides ⟨[(⟨1, 0⟩, ⟨9, 0⟩)], [(⟨7, 0⟩, ⟨1, 0⟩)]⟩
    ⟨[("100", "5"), ("99", "3")], []⟩
    [(⟨100, 0⟩, ⟨5, 0⟩), (⟨99, 0⟩, ⟨3, 0⟩)] [] (by decide) (by decide)
    (by decide) (by decide)

/-- C6: on any book whose sides have numerically distinct keys (as dicts
guarantee), the view has bids strictly descending and asks strictly
ascending by price, each of length `min depth count`; the view is a pure
function of the book, which it leaves untouched. -/
theorem view_sorted_truncated (ob : BybitOrderBook) (levels : ℕ)
    (hb : ob.bids.Pairwise fun x y => ¬ x.1.Eqv y.1)
    (ha : ob.asks.Pairwise fun x y => ¬ x.1.Eqv y.1) :
    ((ob._get_orderbook levels).bids.Pairwise fun x y => y.1.Lt x.1) ∧
    ((ob._get_orderbook levels).asks.Pairwise fun x y => x.1.Lt y.1) ∧
    (ob._get_orderbook levels).bids.length = min levels ob.bids.length ∧
    (ob._get_orderbook levels).asks.length = min levels ob.asks.length := by
  have hlb : (sortAsc ob.bids).length = ob.bids.length :=
    (sortAsc_perm ob.bids).length_eq
  have hla : (sortAsc ob.asks).length = ob.asks.length :=
    (sortAsc_perm ob.asks).length_eq
  refine ⟨?_, ?_, ?_, ?_⟩
  · exact List.Pairwise.sublist (List.take_sublist _ _)
      (by rw [sortDesc]
          exact List.pairwise_reverse.mpr (sortAsc_strict ob.bids hb))
  · exact List.Pairwise.sublist (List.take_sublist _ _)
      (sortAsc_strict ob.asks ha)
  · show ((sortDesc ob.bids).take levels).length = _
    rw [List.length_take, sortDesc, List.length_reverse, hlb]
  · show ((sortAsc ob.asks).take levels).length = _
    rw [List.length_take, hla]

/-- C6 witness: the view of a two-level-bid, one-level-ask book at depth 1
is strictly sorted on both sides and truncated to one level per side. -/
theorem view_sorted_truncated_witness :
    (((BybitOrderBook.mk [(⟨99, 0⟩, ⟨3, 0⟩), (⟨100, 0⟩, ⟨5, 0⟩)]
        [(⟨101, 0⟩, ⟨2, 0⟩)])._get_orderbook 1).bids.Pairwise
      fun x y => y.1.Lt x.1) ∧
    (((BybitOrderBook.mk [(⟨99, 0⟩, ⟨3, 0⟩), (⟨100, 0⟩, ⟨5, 0⟩)]
        [(⟨101, 0⟩, ⟨2, 0⟩)])._get_orderbook 1).asks.Pairwise
      fun x y => x.1.Lt y.1) ∧
    ((BybitOrderBook.mk [(⟨99, 0⟩, ⟨3, 0⟩), (⟨100, 0⟩, ⟨5, 0⟩)]
        [(⟨101, 0⟩, ⟨2, 0⟩)])._get_orderbook 1).bids.length =
      min 1 ([(⟨99, 0⟩, ⟨3, 0⟩), (⟨100, 0⟩, ⟨5, 0⟩)] : PyDict).length ∧
    ((BybitOrderBook.mk [(⟨99, 0⟩, ⟨3, 0⟩), (⟨100, 0⟩, ⟨5, 0⟩)]
        [(⟨101, 0⟩, ⟨2, 0⟩)])._get_orderbook 1).asks.length =
      min 1 ([(⟨101, 0⟩, ⟨2, 0⟩)] : PyDict).length :=
  view_sorted_truncated
    (BybitOrderBook.mk [(⟨99, 0⟩, ⟨3, 0⟩), (⟨100, 0⟩, ⟨5, 0⟩)]
      [(⟨101, 0⟩, ⟨2, 0⟩)]) 1 (by decide) (by decide)

/-- C7, amended: a ticker snapshot unconditionally overwrites all five
stored fields — symbol, mark price, index price, next funding time,
funding rate — with the event's values, a field absent from the event
clearing the stored value (the result is independent of the prior state);
the last trade price is not among the stored fields and the event's
`lastPrice` is dropped. -/
theorem ticker_snapshot_overwrites (t t' : BybitTicker)
    (d : BybitWsTicker) :
    t.handle_snapshot d = t'.handle_snapshot d ∧
    t.handle_snapshot d =
      ⟨some d.symbol, d.markPrice, d.indexPrice, d.nextFundingTime,
        d.fundingRate⟩ :=
  ⟨rfl, rfl⟩

/-- C7 counterexample: two snapshot events that differ only in their
`lastPrice` produce identical ticker states — the operation does not track
a last trade price at all, so it cannot overwrite one with the value
carried by the event. -/
theorem ticker_snapshot_cex :
    BybitTicker.handle_snapshot ⟨none, none, none, none, none⟩
        ⟨"BTCUSDT", some "42", none, none, none, none⟩ =
      BybitTicker.handle_snapshot ⟨none, none, none, none, none⟩
        ⟨"BTCUSDT", some "43", none, none, none, none⟩ ∧
    (some "42" : Option String) ≠ some "43" := by
  constructor
  · rfl
  · simp

/-- C8: a ticker delta overwrites exactly the fields it carries and
retains every other stored field, the symbol included: each market-data
field of the result is the event's value when present and the prior value
when absent. -/
theorem ticker_delta_sparse_merge (t : BybitTicker) (d : BybitWsTicker) :
    t.handle_delta d =
      ⟨t.symbol, d.markPrice.or t.markPrice, d.indexPrice.or t.indexPrice,
        d.nextFundingTime.or t.nextFundingTime,
        d.fundingRate.or t.fundingRate⟩ := by
  unfold BybitTicker.handle_delta
  cases hm : d.markPrice <;> cases hi : d.indexPrice <;>
    cases hn : d.nextFundingTime <;> cases hf : d.fundingRate <;>
    simp [Option.or]

/-- C9, amended: when both wallet strings parse as decimals, both balance
parsers return the entry's asset, the parsed locked amount, and a free
amount equal to the exact difference total minus locked rounded to the
default `Decimal` context's 28 significant digits; whenever the exact
difference fits in 28 significant digits — as the exchange's 18-decimal
values at sane magnitudes do — the free amount equals total minus locked
in exact rational arithmetic. -/
theorem balance_parse_exact (a w l : String) (t lk : Dec)
    (hw : parseDec w = some t) (hl : parseDec l = some lk) :
    ((BybitCoinBalance.mk w l a).parse_to_balance =
      some ⟨a, t.sub lk, lk⟩ ∧
     (BybitWsAccountWalletCoin.mk a w l).parse_to_balance =
      some ⟨a, t.sub lk, lk⟩) ∧
    (numDigits (t.subExact lk).num.natAbs ≤ 28 →
      (t.sub lk).toRat = t.toRat - lk.toRat) := by
  refine ⟨⟨?_, ?_⟩, Dec.toRat_sub_of_fits t lk⟩
  · simp [BybitCoinBalance.parse_to_balance, hw, hl]
  · simp [BybitWsAccountWalletCoin.parse_to_balance, hw, hl]

/-- C9 witness: at walletBalance "100.123456789012345678" and locked
"0.000000000000000001" the exact difference has 21 significant digits, so
it is returned unrounded and the computed free amount is exactly the
decimal denoted by "100.123456789012345677". -/
theorem balance_parse_exact_witness :
    (parseDec "100.123456789012345677" =
      some (Dec.sub ⟨100123456789012345678, 18⟩ ⟨1, 18⟩) ∧
     numDigits (Dec.subExact ⟨100123456789012345678, 18⟩
        ⟨1, 18⟩).num.natAbs ≤ 28) ∧
    (((BybitCoinBalance.mk "100.123456789012345678"
        "0.000000000000000001" "USDT").parse_to_balance =
      some ⟨"USDT", Dec.sub ⟨100123456789012345678, 18⟩ ⟨1, 18⟩,
        ⟨1, 18⟩⟩ ∧
      (BybitWsAccountWalletCoin.mk "USDT" "100.123456789012345678"
        "0.000000000000000001").parse_to_balance =
      some ⟨"USDT", Dec.sub ⟨100123456789012345678, 18⟩ ⟨1, 18⟩,
        ⟨1, 18⟩⟩) ∧
     (numDigits (Dec.subExact ⟨100123456789012345678, 18⟩
        ⟨1, 18⟩).num.natAbs ≤ 28 →
       (Dec.sub ⟨100123456789012345678, 18⟩ ⟨1, 18⟩).toRat =
         (⟨100123456789012345678, 18⟩ : Dec).toRat -
           (⟨1, 18⟩ : Dec).toRat)) :=
  ⟨⟨by decide, by decide⟩,
    balance_parse_exact "USDT" "100.123456789012345678"
      "0.000000000000000001" ⟨100123456789012345678, 18⟩ ⟨1, 18⟩
      (by decide) (by decide)⟩

/-- C9 counterexample: at walletBalance "999999999999.999999999999999999"
and locked "0.000000000000000001" the exact difference needs 30
significant digits, so the context rounds the computed free amount up to
the value 10^12 — a different number than the exact total minus locked,
refuting the unconditional exact-arithmetic claim. -/
theorem balance_parse_exact_cex :
    parseDec "999999999999.999999999999999999" =
      some ⟨999999999999999999999999999999, 18⟩ ∧
    parseDec "0.000000000000000001" = some ⟨1, 18⟩ ∧
    (BybitCoinBalance.mk "999999999999.999999999999999999"
        "0.000000000000000001" "USDT").parse_to_balance =
      some ⟨"USDT",
        Dec.sub ⟨999999999999999999999999999999, 18⟩ ⟨1, 18⟩, ⟨1, 18⟩⟩ ∧
    Dec.sub ⟨999999999999999999999999999999, 18⟩ ⟨1, 18⟩ =
      ⟨10000000000000000000000000000, 16⟩ ∧
    ¬ (⟨10000000000000000000000000000, 16⟩ : Dec).Eqv
        (Dec.subExact ⟨999999999999999999999999999999, 18⟩ ⟨1, 18⟩) := by
  decide

/-- C10: a message whose event type is neither "snapshot" nor "delta"
leaves the order book and the ticker unchanged; the order-book dispatcher
still returns the view computed from the unmodified book and the ticker
dispatcher still returns the unmodified ticker record. -/
theorem unknown_event_type_noop (ob : BybitOrderBook)
    (msg : BybitWsOrderbookDepthMsg) (levels : ℕ) (t : BybitTicker)
    (tmsg : BybitWsTickerMsg)
    (h1 : msg.type ≠ "snapshot") (h2 : msg.type ≠ "delta")
    (h3 : tmsg.type ≠ "snapshot") (h4 : tmsg.type ≠ "delta") :
    ob.parse_orderbook_depth msg levels =
      ((ob, none), some (ob._get_orderbook levels)) ∧
    t.parse_ticker tmsg = t := by
  constructor
  · simp [BybitOrderBook.parse_orderbook_depth, h1, h2]
  · simp [BybitTicker.parse_ticker, h3, h4]

/-- C10 witness: a message of type "unknown" with non-empty payload leaves
a populated book and a populated ticker unchanged while returning the view
of the unmodified book. -/
theorem unknown_event_type_noop_witness :
    BybitOrderBook.parse_orderbook_depth ⟨[(⟨1, 0⟩, ⟨2, 0⟩)], []⟩
        ⟨"unknown", ⟨[("9", "9")], []⟩⟩ 1 =
      ((⟨[(⟨1, 0⟩, ⟨2, 0⟩)], []⟩, none),
        some (BybitOrderBook._get_orderbook ⟨[(⟨1, 0⟩, ⟨2, 0⟩)], []⟩ 1)) ∧
    BybitTicker.parse_ticker ⟨some "BTCUSDT", some "1", none, none, none⟩
        ⟨"unknown", ⟨"ETHUSDT", none, some "2", none, none, none⟩⟩ =
      ⟨some "BTCUSDT", some "1", none, none, none⟩ :=
  unknown_event_type_noop ⟨[(⟨1, 0⟩, ⟨2, 0⟩)], []⟩
    ⟨"unknown", ⟨[("9", "9")], []⟩⟩ 1
    ⟨some "BTCUSDT", some "1", none, none, none⟩
    ⟨"unknown", ⟨"ETHUSDT", none, some "2", none, none, none⟩⟩
    (by decide) (by decide) (by decide) (by decide)
